import Mathlib

/-!
Verification development for the dependency-ordering core of `pymake`
(`src/pymake/dag.py`).  The Python source is shallowly embedded:

* a `Node` object is identified by its index in the `nodelist`; its mutable
  `dependencies` list of `Node` references becomes a `List Nat` of indices;
* the mutable graph state handled by `DirectedAcyclicGraph.toposort` is the
  list of per-node dependency lists, threaded explicitly;
* the arbitrary element returned by Python's `set.pop()` is modelled by a
  `pick` function choosing (mod the frontier length) which frontier entry to
  remove, so theorems quantified over `pick` cover every possible pop order;
* the `while` loop runs on fuel; the fuel supplied by `toposortSt` is proved
  sufficient (`sortLoop_consumes`), so the embedding terminates exactly when
  and how the Python loop does;
* fallible operations (`linelist[1]` raising `IndexError`, the two fatal
  `Exception`s of `toposort`) are modelled with `Except PyErr`; printed
  diagnostics (non-fatal warnings) are not modelled;
* the filesystem seen by `get_f_nodelist` / `order_c_source_files` is a
  function `String → Option (List String)` giving the decoded text lines of
  a path, `none` meaning the file cannot be opened (the `except:` branch);
  the `ascii`/`replace` decode never fails, so readable files always yield
  lines;
* Python dicts (`module_dict`, `sourcefile_module_dict`, `nodedict`) are
  association lists where assignment conses a new binding in front and
  `List.lookup` finds the most recent one — last assignment wins, as for a
  dict.
-/

/-- Errors of the embedded program: `IndexError` from `linelist[1]`, and the
two fatal exceptions raised by `DirectedAcyclicGraph.toposort`
(`'All nodes have dependencies'` and `'Graph has at least one cycle'`). -/
inductive PyErr where
  | indexError : PyErr
  | noRoots : PyErr
  | cycle : PyErr
deriving DecidableEq, Repr

/-- `s = set([]); for n in self.nodelist: if len(n.dependencies) == 0: s.add(n)` —
the initial frontier of `toposort`: the indices of all nodes whose dependency
list is empty, in nodelist order. -/
def initFrontier (g : List (List Nat)) : List Nat :=
  (List.range g.length).filter (fun i => (g.getD i []).isEmpty)

/-- Total number of dependency entries in the graph state (used only to bound
the fuel of the embedded `while` loop). -/
def totalSize (g : List (List Nat)) : Nat :=
  (g.map List.length).sum

/-- The body of `for m in self.nodelist:` for one node `m` after popping `n`:
`if n in m.dependencies: m.dependencies.remove(n); if len(m.dependencies) == 0:
s.add(m)`.  `List.erase` removes the first occurrence, like Python's
`list.remove`; the membership guard on `s` mirrors set insertion. -/
def relaxStep (n m : Nat) (st : List (List Nat) × List Nat) :
    List (List Nat) × List Nat :=
  let g := st.1
  let s := st.2
  let dm := g.getD m []
  if n ∈ dm then
    let dm' := dm.erase n
    let g' := g.set m dm'
    if dm' = [] then (g', if m ∈ s then s else s ++ [m]) else (g', s)
  else st

/-- The whole `for m in self.nodelist:` loop after popping `n`. -/
def relaxAll (n : Nat) (g : List (List Nat)) (s : List Nat) :
    List (List Nat) × List Nat :=
  (List.range g.length).foldl (fun st m => relaxStep n m st) (g, s)

/-- The `while len(s) > 0:` loop of `toposort`.  `pick` chooses which element
`s.pop()` removes; the popped node is appended to the output `l` and then all
nodes are relaxed. -/
def sortLoop (pick : List Nat → Nat) :
    Nat → List (List Nat) → List Nat → List Nat →
    List (List Nat) × List Nat × List Nat
  | 0, g, s, l => (g, s, l)
  | fuel + 1, g, s, l =>
    if s.isEmpty then (g, s, l)
    else
      sortLoop pick fuel
        (relaxAll (s.getD (pick s % s.length) 0) g
          (s.eraseIdx (pick s % s.length))).1
        (relaxAll (s.getD (pick s % s.length) 0) g
          (s.eraseIdx (pick s % s.length))).2
        (l ++ [s.getD (pick s % s.length) 0])

/-- `DirectedAcyclicGraph.toposort`, returning both its result and the final
(mutated) dependency state of the node objects.  On `raise` the caller gets
the exception only, but the nodes keep whatever mutation already happened.
Note that the final cycle check of the source iterates over the output list
`l`, not over `self.nodelist`. -/
def toposortSt (pick : List Nat → Nat) (g : List (List Nat)) :
    Except PyErr (List Nat) × List (List Nat) :=
  if (initFrontier g).isEmpty then (Except.error PyErr.noRoots, g)
  else
    if (sortLoop pick ((initFrontier g).length + totalSize g) g
          (initFrontier g) []).2.2.any
        (fun n => !((sortLoop pick ((initFrontier g).length + totalSize g) g
          (initFrontier g) []).1.getD n []).isEmpty) then
      (Except.error PyErr.cycle,
        (sortLoop pick ((initFrontier g).length + totalSize g) g
          (initFrontier g) []).1)
    else
      (Except.ok (sortLoop pick ((initFrontier g).length + totalSize g) g
          (initFrontier g) []).2.2,
        (sortLoop pick ((initFrontier g).length + totalSize g) g
          (initFrontier g) []).1)

/-- The value `toposort` returns (or the exception it raises). -/
def toposort (pick : List Nat → Nat) (g : List (List Nat)) :
    Except PyErr (List Nat) :=
  (toposortSt pick g).1

/-- A fixed pop order (Python's `set.pop` returns an arbitrary element; this
is one of its possible behaviours, used for concrete evaluations). -/
def pickDefault : List Nat → Nat := fun _ => 0

/-- `b` occurs strictly before `a` in `l`. -/
def Before (b a : Nat) (l : List Nat) : Prop :=
  ∃ l1 l2 l3, l = l1 ++ b :: (l2 ++ a :: l3)

/-- Invariant preserved by the inner relaxation fold, for a fixed output
list `L` (the popped node is already appended to `L`): the graph keeps its
size; every initial edge is still present or its target is already output;
frontier members and output members have no remaining dependencies; the
frontier has no duplicates and is disjoint from the output. -/
def RInv (g0 g : List (List Nat)) (s L : List Nat) : Prop :=
  g.length = g0.length ∧
  (∀ a b, b ∈ g0.getD a [] → b ∈ g.getD a [] ∨ b ∈ L) ∧
  (∀ x, x ∈ s → g.getD x [] = []) ∧
  (∀ x, x ∈ L → g.getD x [] = []) ∧
  s.Nodup ∧ (∀ x, x ∈ s → x ∉ L)

/-- Invariant of the embedded Kahn loop, relating the initial dependency
state `g0` to the current state `(g, s, l)`: additionally, the output list
has no duplicates and every initial dependency of an output node was output
strictly before it. -/
def GInv (g0 g : List (List Nat)) (s l : List Nat) : Prop :=
  RInv g0 g s l ∧
  (∀ a, a ∈ l → ∀ b, b ∈ g0.getD a [] → Before b a l) ∧
  l.Nodup

/-! ### String helpers mirroring the Python primitives

The scanned text is ASCII-decoded with replacement of undecodable bytes, so
`Char.toUpper` agrees with Python's `str.upper` on every character that can
occur. -/

/-- Python whitespace for `str.split()` (space, tab, LF, CR, VT, FF). -/
def pyIsSpace (c : Char) : Bool :=
  c == ' ' || c == Char.ofNat 9 || c == Char.ofNat 10 || c == Char.ofNat 13 ||
    c == Char.ofNat 11 || c == Char.ofNat 12

/-- Worker for `pySplit`: `acc` holds the reversed current token. -/
def pySplitAux : List Char → List Char → List String
  | [], acc => if acc.isEmpty then [] else [⟨acc.reverse⟩]
  | c :: cs, acc =>
    if pyIsSpace c then
      if acc.isEmpty then pySplitAux cs [] else ⟨acc.reverse⟩ :: pySplitAux cs []
    else pySplitAux cs (c :: acc)

/-- `line.strip().split()`: split on runs of whitespace, no empty tokens
(the `strip()` is subsumed by `split()` without arguments). -/
def pySplit (s : String) : List String :=
  pySplitAux s.toList []

/-- `str.upper()` (ASCII). -/
def pyUpper (s : String) : String :=
  ⟨s.toList.map Char.toUpper⟩

/-- `s.split(',')[0]`: everything before the first comma (`str.split` with an
explicit separator always returns at least one piece, so index 0 is safe). -/
def firstCommaField (s : String) : String :=
  ⟨s.toList.takeWhile (fun c => c != ',')⟩

/-- `.replace('"', '').replace("'", "").replace('<', '').replace('>', '')`:
removes every double quote, single quote, and angle bracket. -/
def stripDelims (s : String) : String :=
  ⟨s.toList.filter (fun c =>
    c != '"' && c != Char.ofNat 39 && c != '<' && c != '>')⟩

/-- Index of the last occurrence of `c` in `cs`, if any. -/
def lastIdxOf (c : Char) (cs : List Char) : Option Nat :=
  cs.enum.foldl (fun acc p => if p.2 = c then some p.1 else acc) none

/-- `os.path.basename` (posix): everything after the last slash. -/
def pyBasename (p : String) : String :=
  match lastIdxOf '/' p.toList with
  | none => p
  | some i => ⟨p.toList.drop (i + 1)⟩

/-- `os.path.splitext` (posix): split at the last dot that lies after the
last slash, unless the basename up to that dot consists only of dots
(leading dots never start an extension). -/
def pySplitext (p : String) : String × String :=
  let cs := p.toList
  let s0 : Nat :=
    match lastIdxOf '/' cs with
    | none => 0
    | some s => s + 1
  match lastIdxOf '.' cs with
  | none => (p, "")
  | some d =>
    if ((cs.take d).drop s0).any (fun c => c != '.') then
      (⟨cs.take d⟩, ⟨cs.drop d⟩)
    else (p, "")

/-! ### The symbol extractors and the two-pass pipeline -/

/-- One line of the Fortran scan loop of `get_f_nodelist`:
`MODULE` lines register `linelist[1].upper()` in `module_dict`; `USE` lines
append `linelist[1].split(',')[0].upper()` to `modulelist` if new.  A
matching line with no second token raises `IndexError`. -/
def scanLineF (srcfile : String) (md : List (String × String))
    (ml : List String) (line : String) :
    Except PyErr (List (String × String) × List String) :=
  match pySplit line with
  | [] => Except.ok (md, ml)
  | t0 :: rest =>
    let step1 : Except PyErr (List (String × String)) :=
      if pyUpper t0 = "MODULE" then
        match rest with
        | [] => Except.error PyErr.indexError
        | t1 :: _ => Except.ok ((pyUpper t1, srcfile) :: md)
      else Except.ok md
    match step1 with
    | Except.error e => Except.error e
    | Except.ok md' =>
      if pyUpper t0 = "USE" then
        match rest with
        | [] => Except.error PyErr.indexError
        | t1 :: _ =>
          let m := pyUpper (firstCommaField t1)
          Except.ok (md', if m ∈ ml then ml else ml ++ [m])
      else Except.ok (md', ml)

/-- One line of the include scan loop of `order_c_source_files`:
`#INCLUDE` lines strip quote/angle delimiters from `linelist[1]`, uppercase
it, register it in `module_dict` when its name without extension equals the
scanned file's basename without extension (uppercased), and append it to
`modulelist` if new.  A matching line with no second token raises
`IndexError`. -/
def scanLineC (srcfile : String) (md : List (String × String))
    (ml : List String) (line : String) :
    Except PyErr (List (String × String) × List String) :=
  match pySplit line with
  | [] => Except.ok (md, ml)
  | t0 :: rest =>
    if pyUpper t0 = "#INCLUDE" then
      match rest with
      | [] => Except.error PyErr.indexError
      | t1 :: _ =>
        let m := pyUpper (stripDelims t1)
        let bn := pyBasename srcfile
        let md' :=
          if (pySplitext m).1 = pyUpper (pySplitext bn).1 then
            (m, srcfile) :: md
          else md
        Except.ok (md', if m ∈ ml then ml else ml ++ [m])
    else Except.ok (md, ml)

/-- `for idx, line in enumerate(lines): ...` — fold a per-line scanner over
the decoded lines of one file, threading `module_dict` and `modulelist`. -/
def scanLines
    (scan : List (String × String) → List String → String →
      Except PyErr (List (String × String) × List String)) :
    List String → List (String × String) → List String →
    Except PyErr (List (String × String) × List String)
  | [], md, ml => Except.ok (md, ml)
  | line :: rest, md, ml =>
    match scan md ml line with
    | Except.error e => Except.error e
    | Except.ok st => scanLines scan rest st.1 st.2

/-- The first pass (`for srcfile in srcfiles:`): open each file, scan its
lines, record its `modulelist` under its path in `sourcefile_module_dict`;
an unopenable file records `[]` and is skipped (`continue`). -/
def scanAll
    (scan : String → List (String × String) → List String → String →
      Except PyErr (List (String × String) × List String))
    (fs : String → Option (List String)) :
    List String → List (String × String) → List (String × List String) →
    Except PyErr (List (String × String) × List (String × List String))
  | [], md, smd => Except.ok (md, smd)
  | src :: rest, md, smd =>
    match fs src with
    | none => scanAll scan fs rest md ((src, []) :: smd)
    | some lines =>
      match scanLines (scan src) lines md [] with
      | Except.error e => Except.error e
      | Except.ok st => scanAll scan fs rest st.1 ((src, st.2) :: smd)

/-- Pass 1 of `get_f_nodelist`. -/
def scanAllF (fs : String → Option (List String)) (srcs : List String) :
    Except PyErr (List (String × String) × List (String × List String)) :=
  scanAll scanLineF fs srcs [] []

/-- Pass 1 of `order_c_source_files`. -/
def scanAllC (fs : String → Option (List String)) (srcs : List String) :
    Except PyErr (List (String × String) × List (String × List String)) :=
  scanAll scanLineC fs srcs [] []

/-- A `Node` of the built nodelist: its `name` (the source path) and its
wired dependency collection, as indices into the nodelist. -/
structure PNode where
  name : String
  deps : List Nat
deriving DecidableEq, Repr

/-- `nodedict[srcfile] = node`, executed in creation order: later bindings
shadow earlier ones for `List.lookup`, as for a Python dict. -/
def nodedictAux : Nat → List String → List (String × Nat) → List (String × Nat)
  | _, [], d => d
  | i, src :: rest, d => nodedictAux (i + 1) rest ((src, i) :: d)

/-- The `nodedict` built by the first pass: path → index of the last node
created with that path. -/
def nodedictOf (srcs : List String) : List (String × Nat) :=
  nodedictAux 0 srcs []

/-- `for m in modulelist:` of the second pass: a required symbol found in
`module_dict` whose provider is a different file adds the provider's node
(if not already a dependency); a provider missing from `nodedict` raises a
`KeyError` that the bare `except:` catches, abandoning the rest of this
node's wiring. -/
def wireDeps (md : List (String × String)) (nd : List (String × Nat))
    (srcfile : String) : List String → List Nat → List Nat
  | [], acc => acc
  | m :: rest, acc =>
    match List.lookup m md with
    | none => wireDeps md nd srcfile rest acc
    | some mloc =>
      if mloc = srcfile then wireDeps md nd srcfile rest acc
      else
        match List.lookup mloc nd with
        | none => acc
        | some j => wireDeps md nd srcfile rest (if j ∈ acc then acc else acc ++ [j])

/-- The second pass (`for node in nodelist:`): wire each node's dependencies
from its recorded `modulelist`; a path missing from `sourcefile_module_dict`
raises a `KeyError` that the bare `except:` catches, leaving that node
unwired. -/
def buildNodes (md : List (String × String)) (smd : List (String × List String))
    (srcs : List String) : List PNode :=
  srcs.map (fun src =>
    { name := src
      deps :=
        match List.lookup src smd with
        | none => []
        | some ml => wireDeps md (nodedictOf srcs) src ml [] })

/-- `get_f_nodelist`: scan all files (Fortran dialect), then wire the nodes. -/
def get_f_nodelist (fs : String → Option (List String)) (srcs : List String) :
    Except PyErr (List PNode) :=
  match scanAllF fs srcs with
  | Except.error e => Except.error e
  | Except.ok st => Except.ok (buildNodes st.1 st.2 srcs)

/-- `order_source_files`: build the nodelist, toposort it, return the node
names in sorted order. -/
def order_source_files (pick : List Nat → Nat)
    (fs : String → Option (List String)) (srcs : List String) :
    Except PyErr (List String) :=
  match get_f_nodelist fs srcs with
  | Except.error e => Except.error e
  | Except.ok nl =>
    match toposort pick (nl.map PNode.deps) with
    | Except.error e => Except.error e
    | Except.ok ids => Except.ok (ids.map (fun i => ((nl.get? i).map PNode.name).getD ""))

/-- `order_c_source_files`: the include-dialect scan followed by the same
wiring and sort as `order_source_files`. -/
def order_c_source_files (pick : List Nat → Nat)
    (fs : String → Option (List String)) (srcs : List String) :
    Except PyErr (List String) :=
  match scanAllC fs srcs with
  | Except.error e => Except.error e
  | Except.ok st =>
    let nl := buildNodes st.1 st.2 srcs
    match toposort pick (nl.map PNode.deps) with
    | Except.error e => Except.error e
    | Except.ok ids => Except.ok (ids.map (fun i => ((nl.get? i).map PNode.name).getD ""))

/-! ### Declarative descriptions used to state the claims

These follow the spec's wording; the theorems below relate them to the
embedded source functions. -/

/-- The module name a line declares (`MODULE` as first token, second token
uppercased), if any. -/
def moduleDeclOf (line : String) : Option String :=
  match pySplit line with
  | t0 :: t1 :: _ => if pyUpper t0 = "MODULE" then some (pyUpper t1) else none
  | _ => none

/-- All module names declared by a file's lines, in order. -/
def fModuleNames (lines : List String) : List String :=
  lines.filterMap moduleDeclOf

/-- The include name a line records (`#INCLUDE` as first token, second token
stripped of quote/angle delimiters and uppercased), if any. -/
def includeNameOf (line : String) : Option String :=
  match pySplit line with
  | t0 :: t1 :: _ =>
    if pyUpper t0 = "#INCLUDE" then some (pyUpper (stripDelims t1)) else none
  | _ => none

/-- Whether an include name, without extension, matches the including file's
own basename without extension (uppercased) — the condition under which the
include dialect registers the name as the file's own provided symbol. -/
def selfInclude (src : String) (name : String) : Bool :=
  decide ((pySplitext name).1 = pyUpper (pySplitext (pyBasename src)).1)

/-- The include name a line registers as the scanned file's own provided
symbol, if any: an include name that self-matches. -/
def cProvLine (src : String) (line : String) : Option String :=
  match includeNameOf line with
  | some m => if selfInclude src m then some m else none
  | none => none

/-- The include names a file registers as its own provided symbols. -/
def cProvidedNames (src : String) (lines : List String) : List String :=
  lines.filterMap (cProvLine src)

/-- Fold new elements onto `acc`, keeping only first occurrences. -/
def dedupInto (acc : List String) (xs : List String) : List String :=
  xs.foldl (fun a x => if x ∈ a then a else a ++ [x]) acc

/-- Deduplicate, keeping the first occurrence of each element. -/
def dedupKeepFirst (xs : List String) : List String :=
  dedupInto [] xs

/-- Whether file `s` (as seen through `fs`) declares module `sym`. -/
def declB (fs : String → Option (List String)) (s : String) (sym : String) :
    Bool :=
  match fs s with
  | none => false
  | some lines => decide (sym ∈ fModuleNames lines)

/-- A line that makes the Fortran scan read a second token that is absent:
exactly one whitespace-delimited token, equal (case-insensitively) to
`MODULE` or `USE`. -/
def badLineF (line : String) : Prop :=
  ∃ t, pySplit line = [t] ∧ (pyUpper t = "MODULE" ∨ pyUpper t = "USE")

/-- A line that makes the include scan read a second token that is absent:
exactly one whitespace-delimited token, equal (case-insensitively) to
`#INCLUDE`. -/
def badLineC (line : String) : Prop :=
  ∃ t, pySplit line = [t] ∧ pyUpper t = "#INCLUDE"

/-! ## Theorems -/

-- Sanity checks of the embedding on the fixture from `dag.py`'s main block:
-- a depends on b and c; c depends on d; d depends on b  (ids a=0 b=1 c=2 d=3).
example : toposort pickDefault [[1, 2], [], [3], [1]] = Except.ok [1, 3, 2, 0] := by
  rfl

example : toposort pickDefault [[1], [0]] = Except.error PyErr.noRoots := by
  rfl

/-! ### Termination of the embedded while-loop

The fuel supplied by `toposortSt` is `s₀.length + totalSize g`.  Every loop
iteration removes one frontier element and can only add a frontier element by
deleting at least one dependency entry, so this fuel always suffices: the
loop stops because the frontier is exhausted, exactly like Python's
`while len(s) > 0`. -/

theorem totalSize_cons (a : List Nat) (t : List (List Nat)) :
    totalSize (a :: t) = a.length + totalSize t := by
  simp [totalSize]

theorem totalSize_set (g : List (List Nat)) (m : Nat) (x : List Nat)
    (h : m < g.length) :
    totalSize (g.set m x) + (g.getD m []).length = totalSize g + x.length := by
  induction g generalizing m with
  | nil => simp at h
  | cons a t ih =>
    cases m with
    | zero => simp [totalSize_cons]; omega
    | succ m =>
      simp only [List.set_cons_succ, totalSize_cons, List.getD_cons_succ]
      have := ih m (by simpa using h)
      omega

theorem relaxStep_measure (n m : Nat) (st : List (List Nat) × List Nat) :
    totalSize (relaxStep n m st).1 + (relaxStep n m st).2.length ≤
      totalSize st.1 + st.2.length := by
  obtain ⟨g, s⟩ := st
  unfold relaxStep
  simp only
  by_cases hmem : n ∈ g.getD m []
  · have hm : m < g.length := by
      by_contra hlt
      rw [List.getD_eq_default _ _ (by omega)] at hmem
      simp at hmem
    have hset := totalSize_set g m ((g.getD m []).erase n) hm
    have herase : ((g.getD m []).erase n).length = (g.getD m []).length - 1 :=
      List.length_erase_of_mem hmem
    have hpos : 0 < (g.getD m []).length := List.length_pos.mpr (by
      intro hnil; rw [hnil] at hmem; simp at hmem)
    rw [if_pos hmem]
    by_cases hnil : (g.getD m []).erase n = []
    · rw [if_pos hnil]
      by_cases hs : m ∈ s
      · simp only [if_pos hs]; omega
      · simp only [if_neg hs]
        simp only [List.length_append, List.length_cons, List.length_nil]
        omega
    · rw [if_neg hnil]
      dsimp only
      omega
  · rw [if_neg hmem]

theorem relaxFold_measure (n : Nat) :
    ∀ (ms : List Nat) (st : List (List Nat) × List Nat),
      totalSize (ms.foldl (fun st m => relaxStep n m st) st).1 +
        (ms.foldl (fun st m => relaxStep n m st) st).2.length ≤
      totalSize st.1 + st.2.length := by
  intro ms
  induction ms with
  | nil => intro st; simp
  | cons m rest ih =>
    intro st
    simp only [List.foldl_cons]
    exact le_trans (ih (relaxStep n m st)) (relaxStep_measure n m st)

theorem relaxAll_measure (n : Nat) (g : List (List Nat)) (s : List Nat) :
    totalSize (relaxAll n g s).1 + (relaxAll n g s).2.length ≤
      totalSize g + s.length :=
  relaxFold_measure n (List.range g.length) (g, s)

theorem sortLoop_consumes (pick : List Nat → Nat) :
    ∀ (fuel : Nat) (g : List (List Nat)) (s l : List Nat),
      totalSize g + s.length ≤ fuel → (sortLoop pick fuel g s l).2.1 = [] := by
  intro fuel
  induction fuel with
  | zero =>
    intro g s l h
    have : s.length = 0 := by omega
    simp only [sortLoop]
    exact List.length_eq_zero.mp this
  | succ fuel ih =>
    intro g s l h
    by_cases hs : s.isEmpty
    · simp only [sortLoop, if_pos hs]
      exact List.isEmpty_iff.mp hs
    · simp only [sortLoop, if_neg hs]
      have hlen : 0 < s.length := by
        cases s with
        | nil => simp at hs
        | cons a t => simp
      have hi : pick s % s.length < s.length := Nat.mod_lt _ hlen
      have hlen' : (s.eraseIdx (pick s % s.length)).length = s.length - 1 := by
        have := List.length_eraseIdx_add_one hi
        omega
      apply ih
      have := relaxAll_measure (s.getD (pick s % s.length) 0) g
        (s.eraseIdx (pick s % s.length))
      omega

/-! ### The loop invariant of the embedded Kahn sort -/

theorem getD_set_self (g : List (List Nat)) (m : Nat) (x : List Nat)
    (h : m < g.length) : (g.set m x).getD m [] = x := by
  induction g generalizing m with
  | nil => simp at h
  | cons a t ih =>
    cases m with
    | zero => simp
    | succ m => simpa using ih m (by simpa using h)

theorem getD_set_ne (g : List (List Nat)) (m a : Nat) (x : List Nat)
    (h : a ≠ m) : (g.set m x).getD a [] = g.getD a [] := by
  induction g generalizing m a with
  | nil => simp
  | cons hd t ih =>
    cases m with
    | zero =>
      cases a with
      | zero => exact absurd rfl h
      | succ a => simp
    | succ m =>
      cases a with
      | zero => simp
      | succ a => simpa using ih m a (by omega)

theorem relaxStep_RInv {g0 : List (List Nat)} {L : List Nat} {n : Nat}
    (hn : n ∈ L) (m : Nat) (st : List (List Nat) × List Nat)
    (h : RInv g0 st.1 st.2 L) :
    RInv g0 (relaxStep n m st).1 (relaxStep n m st).2 L := by
  obtain ⟨g, s⟩ := st
  obtain ⟨hlen, hI1, hI2, hI2L, hndS, hdisj⟩ := h
  unfold relaxStep
  simp only
  by_cases hmem : n ∈ g.getD m []
  · have hm : m < g.length := by
      by_contra hlt
      rw [List.getD_eq_default _ _ (by omega)] at hmem
      simp at hmem
    have hgetm : (g.set m ((g.getD m []).erase n)).getD m [] =
        (g.getD m []).erase n := getD_set_self g m _ hm
    have hgeta : ∀ a, a ≠ m →
        (g.set m ((g.getD m []).erase n)).getD a [] = g.getD a [] :=
      fun a ha => getD_set_ne g m a _ ha
    have hmS : m ∉ s := by
      intro hms
      rw [hI2 m hms] at hmem
      simp at hmem
    have hmL : m ∉ L := by
      intro hmL
      rw [hI2L m hmL] at hmem
      simp at hmem
    have hlen' : (g.set m ((g.getD m []).erase n)).length = g0.length := by
      rw [List.length_set]; exact hlen
    have hI1' : ∀ a b, b ∈ g0.getD a [] →
        b ∈ (g.set m ((g.getD m []).erase n)).getD a [] ∨ b ∈ L := by
      intro a b hb
      rcases hI1 a b hb with hcur | hout
      · by_cases ham : a = m
        · subst ham
          by_cases hbn : b = n
          · exact Or.inr (hbn ▸ hn)
          · exact Or.inl (by rw [hgetm]; exact (List.mem_erase_of_ne hbn).mpr hcur)
        · exact Or.inl (by rw [hgeta a ham]; exact hcur)
      · exact Or.inr hout
    have hI2L' : ∀ x, x ∈ L →
        (g.set m ((g.getD m []).erase n)).getD x [] = [] := by
      intro x hx
      have hxm : x ≠ m := fun he => hmL (he ▸ hx)
      rw [hgeta x hxm]; exact hI2L x hx
    rw [if_pos hmem]
    by_cases hnil : (g.getD m []).erase n = []
    · rw [if_pos hnil, if_neg hmS]
      refine ⟨hlen', hI1', ?_, hI2L', ?_, ?_⟩
      · intro x hx
        rcases List.mem_append.mp hx with hxs | hxm
        · have hxm : x ≠ m := fun he => hmS (he ▸ hxs)
          rw [hgeta x hxm]; exact hI2 x hxs
        · have hxm : x = m := by simpa using hxm
          subst hxm
          rw [hgetm]; exact hnil
      · rw [List.nodup_append]
        refine ⟨hndS, List.nodup_singleton m, ?_⟩
        intro a ha ham
        have ham' : a = m := by simpa using ham
        exact hmS (ham' ▸ ha)
      · intro x hx
        rcases List.mem_append.mp hx with hxs | hxm
        · exact hdisj x hxs
        · have : x = m := by simpa using hxm
          exact this ▸ hmL
    · rw [if_neg hnil]
      refine ⟨hlen', hI1', ?_, hI2L', hndS, hdisj⟩
      intro x hx
      have hxm : x ≠ m := fun he => hmS (he ▸ hx)
      rw [hgeta x hxm]; exact hI2 x hx
  · rw [if_neg hmem]
    exact ⟨hlen, hI1, hI2, hI2L, hndS, hdisj⟩

theorem relaxFold_RInv {g0 : List (List Nat)} {L : List Nat} {n : Nat}
    (hn : n ∈ L) :
    ∀ (ms : List Nat) (st : List (List Nat) × List Nat),
      RInv g0 st.1 st.2 L →
      RInv g0 (ms.foldl (fun st m => relaxStep n m st) st).1
        (ms.foldl (fun st m => relaxStep n m st) st).2 L := by
  intro ms
  induction ms with
  | nil => intro st h; exact h
  | cons m rest ih =>
    intro st h
    simp only [List.foldl_cons]
    exact ih (relaxStep n m st) (relaxStep_RInv hn m st h)

theorem relaxAll_RInv {g0 : List (List Nat)} {L : List Nat} {n : Nat}
    (hn : n ∈ L) (g : List (List Nat)) (s : List Nat)
    (h : RInv g0 g s L) :
    RInv g0 (relaxAll n g s).1 (relaxAll n g s).2 L :=
  relaxFold_RInv hn (List.range g.length) (g, s) h

theorem getD_not_mem_eraseIdx :
    ∀ (s : List Nat), s.Nodup → ∀ i, i < s.length →
      s.getD i 0 ∉ s.eraseIdx i := by
  intro s
  induction s with
  | nil => intro _ i hi; simp at hi
  | cons a t ih =>
    intro hnd i hi
    cases i with
    | zero =>
      simp only [List.getD_cons_zero, List.eraseIdx_cons_zero]
      exact (List.nodup_cons.mp hnd).1
    | succ i =>
      simp only [List.getD_cons_succ, List.eraseIdx_cons_succ, List.mem_cons]
      rintro (he | hmem)
      · have hti : i < t.length := by simpa using hi
        have : t.getD i 0 ∈ t := by
          rw [List.getD_eq_getElem t 0 hti]
          exact List.getElem_mem hti
        exact (List.nodup_cons.mp hnd).1 (he ▸ this)
      · exact ih (List.nodup_cons.mp hnd).2 i (by simpa using hi) hmem

theorem GInv_init (g : List (List Nat)) : GInv g g (initFrontier g) [] := by
  refine ⟨⟨rfl, ?_, ?_, ?_, ?_, ?_⟩, ?_, ?_⟩
  · intro a b hb; exact Or.inl hb
  · intro x hx
    have := List.of_mem_filter hx
    exact List.isEmpty_iff.mp (by simpa using this)
  · intro x hx; simp at hx
  · exact List.Nodup.filter _ (List.nodup_range g.length)
  · intro x _; simp
  · intro a ha; simp at ha
  · exact List.nodup_nil

theorem sortLoop_GInv (pick : List Nat → Nat) {g0 : List (List Nat)} :
    ∀ (fuel : Nat) (g : List (List Nat)) (s l : List Nat),
      GInv g0 g s l →
      GInv g0 (sortLoop pick fuel g s l).1 (sortLoop pick fuel g s l).2.1
        (sortLoop pick fuel g s l).2.2 := by
  intro fuel
  induction fuel with
  | zero => intro g s l h; simpa [sortLoop] using h
  | succ fuel ih =>
    intro g s l h
    by_cases hs : s.isEmpty
    · simp only [sortLoop, if_pos hs]
      exact h
    · simp only [sortLoop, if_neg hs]
      obtain ⟨⟨hlen, hI1, hI2, hI2L, hndS, hdisj⟩, hI3, hndL⟩ := h
      have hlen0 : 0 < s.length := by
        cases s with
        | nil => simp at hs
        | cons a t => simp
      have hi : pick s % s.length < s.length := Nat.mod_lt _ hlen0
      have hns : s.getD (pick s % s.length) 0 ∈ s := by
        rw [List.getD_eq_getElem s 0 hi]
        exact List.getElem_mem hi
      have hnl : s.getD (pick s % s.length) 0 ∉ l := hdisj _ hns
      have hs'sub : s.eraseIdx (pick s % s.length) ⊆ s :=
        List.eraseIdx_subset s (pick s % s.length)
      have hs'nd : (s.eraseIdx (pick s % s.length)).Nodup :=
        List.Nodup.eraseIdx _ hndS
      have hn_not_s' :
          s.getD (pick s % s.length) 0 ∉ s.eraseIdx (pick s % s.length) :=
        getD_not_mem_eraseIdx s hndS _ hi
      have hnL : s.getD (pick s % s.length) 0 ∈ l ++ [s.getD (pick s % s.length) 0] :=
        List.mem_append_right l (by simp)
      have hRInv : RInv g0 g (s.eraseIdx (pick s % s.length))
          (l ++ [s.getD (pick s % s.length) 0]) := by
        refine ⟨hlen, ?_, ?_, ?_, hs'nd, ?_⟩
        · intro a b hb
          rcases hI1 a b hb with hcur | hout
          · exact Or.inl hcur
          · exact Or.inr (List.mem_append_left _ hout)
        · intro x hx; exact hI2 x (hs'sub hx)
        · intro x hx
          rcases List.mem_append.mp hx with hxl | hxn
          · exact hI2L x hxl
          · have hxn' : x = s.getD (pick s % s.length) 0 := by simpa using hxn
            exact hxn' ▸ hI2 _ hns
        · intro x hx hxL
          rcases List.mem_append.mp hxL with hxl | hxn
          · exact hdisj x (hs'sub hx) hxl
          · have hxn' : x = s.getD (pick s % s.length) 0 := by simpa using hxn
            exact hn_not_s' (hxn' ▸ hx)
      have hfold := relaxAll_RInv hnL g (s.eraseIdx (pick s % s.length)) hRInv
      have hI3' : ∀ a, a ∈ l ++ [s.getD (pick s % s.length) 0] →
          ∀ b, b ∈ g0.getD a [] →
            Before b a (l ++ [s.getD (pick s % s.length) 0]) := by
        intro a ha b hb
        rcases List.mem_append.mp ha with hal | han
        · obtain ⟨l1, l2, l3, hdec⟩ := hI3 a hal b hb
          exact ⟨l1, l2, l3 ++ [s.getD (pick s % s.length) 0], by rw [hdec]; simp⟩
        · have han' : a = s.getD (pick s % s.length) 0 := by simpa using han
          rcases hI1 a b hb with hcur | hout
          · rw [han', hI2 _ hns] at hcur; simp at hcur
          · obtain ⟨u, v, huv⟩ := List.append_of_mem hout
            exact ⟨u, v, [], by rw [huv, han']; simp⟩
      have hndL' : (l ++ [s.getD (pick s % s.length) 0]).Nodup := by
        rw [List.nodup_append]
        refine ⟨hndL, List.nodup_singleton _, ?_⟩
        intro x hx hxn
        have hxn' : x = s.getD (pick s % s.length) 0 := by simpa using hxn
        exact hnl (hxn' ▸ hx)
      exact ih _ _ _ ⟨hfold, hI3', hndL'⟩

theorem toposort_ok_inv (pick : List Nat → Nat) (g : List (List Nat))
    (out : List Nat) (h : toposort pick g = Except.ok out) :
    ∃ s', GInv g (toposortSt pick g).2 s' out := by
  unfold toposort at h
  unfold toposortSt at h ⊢
  by_cases h0 : (initFrontier g).isEmpty
  · rw [if_pos h0] at h; exact absurd h (by simp)
  · rw [if_neg h0] at h ⊢
    have hInv := sortLoop_GInv pick ((initFrontier g).length + totalSize g) g
      (initFrontier g) [] (GInv_init g)
    by_cases hc : (sortLoop pick ((initFrontier g).length + totalSize g) g
        (initFrontier g) []).2.2.any
        (fun n => !((sortLoop pick ((initFrontier g).length + totalSize g) g
          (initFrontier g) []).1.getD n []).isEmpty)
    · rw [if_pos hc] at h; exact absurd h (by simp)
    · rw [if_neg hc] at h ⊢
      have hout : (sortLoop pick ((initFrontier g).length + totalSize g) g
          (initFrontier g) []).2.2 = out := by
        simpa using h
      exact ⟨(sortLoop pick ((initFrontier g).length + totalSize g) g
        (initFrontier g) []).2.1, hout ▸ hInv⟩

theorem get?_append_cons :
    ∀ (P : List Nat) (x : Nat) (Q : List Nat),
      (P ++ x :: Q).get? P.length = some x := by
  intro P x Q
  induction P with
  | nil => rfl
  | cons p t ih => simpa using ih

theorem before_get_indices {b a : Nat} {l : List Nat} (h : Before b a l) :
    ∃ j i, j < i ∧ l.get? j = some b ∧ l.get? i = some a := by
  obtain ⟨l1, l2, l3, rfl⟩ := h
  have e : l1 ++ b :: (l2 ++ a :: l3) = (l1 ++ b :: l2) ++ a :: l3 := by simp
  refine ⟨l1.length, (l1 ++ b :: l2).length, ?_, ?_, ?_⟩
  · simp
  · exact get?_append_cons l1 b (l2 ++ a :: l3)
  · rw [e]; exact get?_append_cons (l1 ++ b :: l2) a l3

theorem initFrontier_isEmpty_iff (g : List (List Nat)) :
    (initFrontier g).isEmpty = true ↔ ∀ i, i < g.length → g.getD i [] ≠ [] := by
  rw [List.isEmpty_iff]
  unfold initFrontier
  rw [List.filter_eq_nil_iff]
  constructor
  · intro h i hi hnil
    exact h i (List.mem_range.mpr hi) (by rw [hnil]; rfl)
  · intro h i hi hempty
    exact h i (List.mem_range.mp hi) (List.isEmpty_iff.mp hempty)

/-! ### The claims about `DirectedAcyclicGraph.toposort` -/

/-- C1: the claim states that whenever `toposort` returns successfully the
output is a permutation of the input node set (all-or-nothing).  The code
violates this: on the node set with one root node `0` and a three-node
cycle `1 → 2 → 3 → 1`, `toposort` returns successfully with the partial
order `[0]` — length 1 instead of 4, omitting nodes 1, 2, 3 — because the
final cycle check iterates over the output list `l` (whose members always
have empty dependency lists) instead of over `self.nodelist`. -/
theorem c1_toposort_partial_output :
    toposort pickDefault [[], [2], [3], [1]] = Except.ok [0] ∧
      ([0] : List Nat).length ≠ ([[], [2], [3], [1]] : List (List Nat)).length :=
  ⟨by rfl, by decide⟩

/-- C2: the claim states that a dependency cycle surviving the main Kahn
loop makes `toposort` raise the cycle error (`'Graph has at least one
cycle'`) and return no partial order.  The code violates this on both
example shapes: the pure mutual cycle `0 → 1 → 2 → 0` raises the *no-roots*
error (`'All nodes have dependencies'`) instead, and a cycle `1 ↔ 2`
coexisting with the cycle-free root `0` raises nothing and returns the
partial order `[0]`. -/
theorem c2_cycle_error_never_raised :
    toposort pickDefault [[1], [2], [0]] = Except.error PyErr.noRoots ∧
      toposort pickDefault [[], [2], [1]] = Except.ok [0] :=
  ⟨by rfl, by rfl⟩

/-- C3: for every input node set, every pop order, and every successful
`toposort` output, and for every dependency edge (`a` depends on `b`,
i.e. `b` is in `a`'s initial dependency list): whenever `a` appears in the
output, `b` appears at a strictly smaller index. -/
theorem c3_edge_precedence (pick : List Nat → Nat) (g : List (List Nat))
    (out : List Nat) (a b : Nat) (hok : toposort pick g = Except.ok out)
    (hedge : b ∈ g.getD a []) (hmem : a ∈ out) :
    ∃ j i, j < i ∧ out.get? j = some b ∧ out.get? i = some a := by
  obtain ⟨s', hInv⟩ := toposort_ok_inv pick g out hok
  exact before_get_indices (hInv.2.1 a hmem b hedge)

/-- Witness for C3 at a concrete input: node 1 depends on node 0, the sort
returns `[0, 1]`, and 0 indeed precedes 1. -/
theorem c3_edge_precedence_witness :
    ∃ j i, j < i ∧ ([0, 1] : List Nat).get? j = some 0 ∧
      ([0, 1] : List Nat).get? i = some 1 :=
  c3_edge_precedence pickDefault [[], [0]] [0, 1] 1 0 (by rfl) (by decide)
    (by decide)

/-- C4 (counterexample): the claim states that for an empty node set no
fatal error is raised at the frontier check.  The code checks
`len(s) == 0` without checking that the node set is non-empty, so the
empty node set also raises `'All nodes have dependencies'`. -/
theorem c4_empty_nodelist_raises :
    toposort pickDefault ([] : List (List Nat)) = Except.error PyErr.noRoots := by
  rfl

/-- C4 (amended): `toposort` raises the no-roots error
(`'All nodes have dependencies'`) exactly when no node has an empty initial
dependency list — i.e. when every node has at least one dependency, which
vacuously includes the empty node set. -/
theorem c4_noRoots_iff (pick : List Nat → Nat) (g : List (List Nat)) :
    toposort pick g = Except.error PyErr.noRoots ↔
      ∀ i, i < g.length → g.getD i [] ≠ [] := by
  unfold toposort toposortSt
  by_cases h0 : (initFrontier g).isEmpty
  · rw [if_pos h0]
    constructor
    · intro _
      exact (initFrontier_isEmpty_iff g).mp h0
    · intro _
      rfl
  · rw [if_neg h0]
    constructor
    · intro hres
      exfalso
      have hres' :
          (if ((sortLoop pick ((initFrontier g).length + totalSize g) g
                (initFrontier g) []).2.2.any
              fun n => !((sortLoop pick ((initFrontier g).length + totalSize g)
                g (initFrontier g) []).1.getD n []).isEmpty) = true
            then (Except.error PyErr.cycle,
              (sortLoop pick ((initFrontier g).length + totalSize g) g
                (initFrontier g) []).1)
            else (Except.ok (sortLoop pick ((initFrontier g).length +
                totalSize g) g (initFrontier g) []).2.2,
              (sortLoop pick ((initFrontier g).length + totalSize g) g
                (initFrontier g) []).1)).1 =
            Except.error PyErr.noRoots := hres
      split at hres' <;> simp at hres'
    · intro hall
      exact absurd ((initFrontier_isEmpty_iff g).mpr hall) h0

/-- Witness for C4 at a concrete input: both nodes of `[[0], [0]]` have a
dependency, so the no-roots error is raised. -/
theorem c4_noRoots_iff_witness :
    toposort pickDefault [[0], [0]] = Except.error PyErr.noRoots :=
  (c4_noRoots_iff pickDefault [[0], [0]]).mpr (by decide)

/-- C5 (counterexample): the claim states that `toposort` leaves the
caller's dependency collections unchanged.  It does not: sorting the graph
where node 1 depends on node 0 empties node 1's dependency list in place. -/
theorem c5_toposort_mutates_dependencies :
    (toposortSt pickDefault [[], [0]]).2 = [[], []] ∧
      ([[], []] : List (List Nat)) ≠ [[], [0]] :=
  ⟨by rfl, by decide⟩

/-- C5 (amended): `toposort` consumes the dependency collections in place:
after a successful sort, every node that was output has an empty dependency
collection, so the caller must rebuild the node set to re-sort. -/
theorem c5_toposort_consumes_deps (pick : List Nat → Nat) (g : List (List Nat))
    (out : List Nat) (hok : toposort pick g = Except.ok out) :
    ∀ m ∈ out, (toposortSt pick g).2.getD m [] = [] := by
  obtain ⟨s', hInv⟩ := toposort_ok_inv pick g out hok
  exact fun m hm => hInv.1.2.2.2.1 m hm

/-- Witness for C5 at a concrete input. -/
theorem c5_toposort_consumes_deps_witness :
    (toposortSt pickDefault [[], [0]]).2.getD 1 [] = [] :=
  c5_toposort_consumes_deps pickDefault [[], [0]] [0, 1] (by rfl) 1 (by decide)

/-! ### Association-list (dict) lemmas -/

theorem lookup_mem_pairs {α β : Type} [BEq α] [LawfulBEq α] {k : α} {v : β}
    {l : List (α × β)} (h : List.lookup k l = some v) : (k, v) ∈ l := by
  induction l with
  | nil => simp [List.lookup] at h
  | cons p t ih =>
    obtain ⟨a, b⟩ := p
    rw [List.lookup_cons] at h
    by_cases hk : (k == a)
    · rw [hk] at h
      simp only at h
      have hka : k = a := eq_of_beq hk
      exact List.mem_cons.mpr (Or.inl (by rw [hka, ← Option.some.inj h]))
    · rw [Bool.not_eq_true] at hk
      rw [hk] at h
      simp only at h
      exact List.mem_cons.mpr (Or.inr (ih h))

theorem lookup_foldl_cons (src : String) :
    ∀ (names : List String) (md : List (String × String)) (x : String),
      List.lookup x (names.foldl (fun d m => (m, src) :: d) md) =
        if x ∈ names then some src else List.lookup x md := by
  intro names
  induction names with
  | nil => intro md x; simp
  | cons n rest ih =>
    intro md x
    simp only [List.foldl_cons]
    rw [ih ((n, src) :: md) x]
    by_cases hx : x ∈ rest
    · simp [hx]
    · simp only [if_neg hx]
      rw [List.lookup_cons]
      by_cases hxn : x = n
      · subst hxn
        simp
      · have hb : (x == n) = false := beq_eq_false_iff_ne.mpr hxn
        rw [hb]
        simp only
        have hnc : x ∉ n :: rest := by simp [hxn, hx]
        rw [if_neg hnc]

/-! ### Structural characterization of the Fortran line scan -/

theorem scanLineF_ok_md (src : String) (md : List (String × String))
    (ml : List String) (line : String) (md1 : List (String × String))
    (ml1 : List String) (h : scanLineF src md ml line = Except.ok (md1, ml1)) :
    md1 = match moduleDeclOf line with
          | some m => (m, src) :: md
          | none => md := by
  unfold scanLineF at h
  unfold moduleDeclOf
  rcases hsp : pySplit line with _ | ⟨t0, rest⟩ <;> rw [hsp] at h
  · simp only [Except.ok.injEq, Prod.mk.injEq] at h
    simp [h.1.symm]
  · dsimp only at h
    cases rest with
    | nil =>
      by_cases hm : pyUpper t0 = "MODULE"
      · rw [if_pos hm] at h
        simp at h
      · rw [if_neg hm] at h
        dsimp only at h
        by_cases hu : pyUpper t0 = "USE"
        · rw [if_pos hu] at h
          simp at h
        · rw [if_neg hu] at h
          simp only [Except.ok.injEq, Prod.mk.injEq] at h
          simp [h.1.symm]
    | cons t1 ts =>
      by_cases hm : pyUpper t0 = "MODULE"
      · rw [if_pos hm] at h
        dsimp only at h
        have hu : ¬ pyUpper t0 = "USE" := by rw [hm]; decide
        rw [if_neg hu] at h
        simp only [Except.ok.injEq, Prod.mk.injEq] at h
        simp [if_pos hm, h.1.symm]
      · rw [if_neg hm] at h
        dsimp only at h
        by_cases hu : pyUpper t0 = "USE"
        · rw [if_pos hu] at h
          simp only [Except.ok.injEq, Prod.mk.injEq] at h
          simp [if_neg hm, h.1.symm]
        · rw [if_neg hu] at h
          simp only [Except.ok.injEq, Prod.mk.injEq] at h
          simp [if_neg hm, h.1.symm]

theorem scanLinesF_md (src : String) :
    ∀ (lines : List String) (md : List (String × String)) (ml : List String)
      (md1 : List (String × String)) (ml1 : List String),
      scanLines (scanLineF src) lines md ml = Except.ok (md1, ml1) →
      md1 = (fModuleNames lines).foldl (fun d m => (m, src) :: d) md := by
  intro lines
  induction lines with
  | nil =>
    intro md ml md1 ml1 h
    simp only [scanLines, Except.ok.injEq, Prod.mk.injEq] at h
    simp [fModuleNames, h.1.symm]
  | cons line rest ih =>
    intro md ml md1 ml1 h
    simp only [scanLines] at h
    rcases hline : scanLineF src md ml line with e | st
    · rw [hline] at h; simp at h
    · rw [hline] at h
      simp only at h
      have hmd := scanLineF_ok_md src md ml line st.1 st.2 (by rw [hline])
      have hrest := ih st.1 st.2 md1 ml1 h
      rw [hrest, hmd]
      unfold fModuleNames
      rcases hdecl : moduleDeclOf line with _ | m
      · simp [List.filterMap_cons, hdecl]
      · simp [List.filterMap_cons, hdecl]

/-! ### Structural characterization of the include line scan -/

theorem scanLineC_ok (src : String) (md : List (String × String))
    (ml : List String) (line : String) (md1 : List (String × String))
    (ml1 : List String) (h : scanLineC src md ml line = Except.ok (md1, ml1)) :
    (md1 = match cProvLine src line with
           | some m => (m, src) :: md
           | none => md) ∧
    (ml1 = match includeNameOf line with
           | some m => if m ∈ ml then ml else ml ++ [m]
           | none => ml) := by
  unfold scanLineC at h
  unfold cProvLine includeNameOf
  rcases hsp : pySplit line with _ | ⟨t0, rest⟩ <;> rw [hsp] at h
  · simp only [Except.ok.injEq, Prod.mk.injEq] at h
    exact ⟨h.1.symm, h.2.symm⟩
  · dsimp only at h
    cases rest with
    | nil =>
      by_cases hI : pyUpper t0 = "#INCLUDE"
      · rw [if_pos hI] at h
        simp at h
      · rw [if_neg hI] at h
        simp only [Except.ok.injEq, Prod.mk.injEq] at h
        constructor <;> simp [if_neg hI, h.1.symm, h.2.symm]
    | cons t1 ts =>
      by_cases hI : pyUpper t0 = "#INCLUDE"
      · rw [if_pos hI] at h
        dsimp only at h
        simp only [Except.ok.injEq, Prod.mk.injEq] at h
        constructor
        · rw [← h.1]
          by_cases hc : (pySplitext (pyUpper (stripDelims t1))).1 =
              pyUpper (pySplitext (pyBasename src)).1
          · simp [if_pos hI, selfInclude, hc]
          · simp [if_pos hI, selfInclude, hc]
        · rw [← h.2]
          simp [if_pos hI]
      · rw [if_neg hI] at h
        simp only [Except.ok.injEq, Prod.mk.injEq] at h
        constructor <;> simp [if_neg hI, h.1.symm, h.2.symm]

theorem scanLinesC_structure (src : String) :
    ∀ (lines : List String) (md : List (String × String)) (ml : List String)
      (md1 : List (String × String)) (ml1 : List String),
      scanLines (scanLineC src) lines md ml = Except.ok (md1, ml1) →
      md1 = (cProvidedNames src lines).foldl (fun d m => (m, src) :: d) md ∧
      ml1 = dedupInto ml (lines.filterMap includeNameOf) := by
  intro lines
  induction lines with
  | nil =>
    intro md ml md1 ml1 h
    simp only [scanLines, Except.ok.injEq, Prod.mk.injEq] at h
    exact ⟨by simp [cProvidedNames, h.1.symm],
      by simp [dedupInto, h.2.symm]⟩
  | cons line rest ih =>
    intro md ml md1 ml1 h
    simp only [scanLines] at h
    rcases hline : scanLineC src md ml line with e | st
    · rw [hline] at h; simp at h
    · rw [hline] at h
      simp only at h
      obtain ⟨hmd, hml⟩ := scanLineC_ok src md ml line st.1 st.2 (by rw [hline])
      obtain ⟨hmd1, hml1⟩ := ih st.1 st.2 md1 ml1 h
      constructor
      · rw [hmd1, hmd]
        unfold cProvidedNames
        rcases hdecl : cProvLine src line with _ | m
        · simp [List.filterMap_cons, hdecl]
        · simp [List.filterMap_cons, hdecl]
      · rw [hml1, hml]
        rcases hinc : includeNameOf line with _ | m
        · simp [List.filterMap_cons, hinc]
        · simp [List.filterMap_cons, hinc, dedupInto]

/-! ### Error propagation: a missing second token aborts the scan -/

theorem scanLineF_error_eq (src : String) (md : List (String × String))
    (ml : List String) (line : String) (e : PyErr)
    (h : scanLineF src md ml line = Except.error e) : e = PyErr.indexError := by
  unfold scanLineF at h
  rcases hsp : pySplit line with _ | ⟨t0, rest⟩ <;> rw [hsp] at h
  · simp at h
  · dsimp only at h
    cases rest with
    | nil =>
      by_cases hm : pyUpper t0 = "MODULE"
      · rw [if_pos hm] at h
        simp only [Except.error.injEq] at h
        exact h.symm
      · rw [if_neg hm] at h
        dsimp only at h
        by_cases hu : pyUpper t0 = "USE"
        · rw [if_pos hu] at h
          simp only [Except.error.injEq] at h
          exact h.symm
        · rw [if_neg hu] at h
          simp at h
    | cons t1 ts =>
      by_cases hm : pyUpper t0 = "MODULE"
      · rw [if_pos hm] at h
        dsimp only at h
        have hu : ¬ pyUpper t0 = "USE" := by rw [hm]; decide
        rw [if_neg hu] at h
        simp at h
      · rw [if_neg hm] at h
        dsimp only at h
        by_cases hu : pyUpper t0 = "USE"
        · rw [if_pos hu] at h
          simp at h
        · rw [if_neg hu] at h
          simp at h

theorem scanLineC_error_eq (src : String) (md : List (String × String))
    (ml : List String) (line : String) (e : PyErr)
    (h : scanLineC src md ml line = Except.error e) : e = PyErr.indexError := by
  unfold scanLineC at h
  rcases hsp : pySplit line with _ | ⟨t0, rest⟩ <;> rw [hsp] at h
  · simp at h
  · dsimp only at h
    cases rest with
    | nil =>
      by_cases hI : pyUpper t0 = "#INCLUDE"
      · rw [if_pos hI] at h
        simp only [Except.error.injEq] at h
        exact h.symm
      · rw [if_neg hI] at h
        simp at h
    | cons t1 ts =>
      by_cases hI : pyUpper t0 = "#INCLUDE"
      · rw [if_pos hI] at h
        dsimp only at h
        simp at h
      · rw [if_neg hI] at h
        simp at h

theorem scanLineF_badLine (src : String) (md : List (String × String))
    (ml : List String) (line : String) (hbad : badLineF line) :
    scanLineF src md ml line = Except.error PyErr.indexError := by
  obtain ⟨t, hsp, hkw⟩ := hbad
  unfold scanLineF
  rw [hsp]
  dsimp only
  rcases hkw with hm | hu
  · rw [if_pos hm]
  · have hm : ¬ pyUpper t = "MODULE" := by rw [hu]; decide
    rw [if_neg hm]
    dsimp only
    rw [if_pos hu]

theorem scanLineC_badLine (src : String) (md : List (String × String))
    (ml : List String) (line : String) (hbad : badLineC line) :
    scanLineC src md ml line = Except.error PyErr.indexError := by
  obtain ⟨t, hsp, hI⟩ := hbad
  unfold scanLineC
  rw [hsp]
  dsimp only
  rw [if_pos hI]

theorem scanLines_error_eq
    (scan : List (String × String) → List String → String →
      Except PyErr (List (String × String) × List String))
    (herr : ∀ md ml line e, scan md ml line = Except.error e →
      e = PyErr.indexError) :
    ∀ (lines : List String) (md : List (String × String)) (ml : List String)
      (e : PyErr),
      scanLines scan lines md ml = Except.error e → e = PyErr.indexError := by
  intro lines
  induction lines with
  | nil => intro md ml e h; simp [scanLines] at h
  | cons line rest ih =>
    intro md ml e h
    simp only [scanLines] at h
    rcases hline : scan md ml line with e' | st
    · rw [hline] at h
      simp only [Except.error.injEq] at h
      rw [← h]
      exact herr md ml line e' hline
    · rw [hline] at h
      simp only at h
      exact ih st.1 st.2 e h

theorem scanLines_badLine_error
    (scan : List (String × String) → List String → String →
      Except PyErr (List (String × String) × List String))
    (herr : ∀ md ml line e, scan md ml line = Except.error e →
      e = PyErr.indexError) :
    ∀ (lines : List String) (md : List (String × String)) (ml : List String)
      (line : String), line ∈ lines →
      (∀ md2 ml2, scan md2 ml2 line = Except.error PyErr.indexError) →
      scanLines scan lines md ml = Except.error PyErr.indexError := by
  intro lines
  induction lines with
  | nil => intro md ml line h _; simp at h
  | cons l0 rest ih =>
    intro md ml line hmem hbad
    simp only [scanLines]
    rcases List.mem_cons.mp hmem with h0 | h0
    · subst h0
      rw [hbad md ml]
    · rcases hline : scan md ml l0 with e | st
      · dsimp only
        rw [herr md ml l0 e hline]
      · dsimp only
        exact ih st.1 st.2 line h0 hbad

theorem scanAll_badLine_error
    (scan : String → List (String × String) → List String → String →
      Except PyErr (List (String × String) × List String))
    (fs : String → Option (List String))
    (herr : ∀ src md ml line e, scan src md ml line = Except.error e →
      e = PyErr.indexError) :
    ∀ (srcs : List String) (md : List (String × String))
      (smd : List (String × List String)) (src : String) (lines : List String)
      (line : String),
      src ∈ srcs → fs src = some lines → line ∈ lines →
      (∀ md2 ml2, scan src md2 ml2 line = Except.error PyErr.indexError) →
      scanAll scan fs srcs md smd = Except.error PyErr.indexError := by
  intro srcs
  induction srcs with
  | nil => intro _ _ _ _ _ h; simp at h
  | cons s0 rest ih =>
    intro md smd src lines line hmem hfs hline hbad
    simp only [scanAll]
    rcases List.mem_cons.mp hmem with h0 | h0
    · subst h0
      rw [hfs]
      dsimp only
      rw [scanLines_badLine_error (scan src) (herr src) lines md [] line hline
        hbad]
    · rcases hf0 : fs s0 with _ | lines0
      · dsimp only
        exact ih md ((s0, []) :: smd) src lines line h0 hfs hline hbad
      · dsimp only
        rcases hsc : scanLines (scan s0) lines0 md [] with e | st
        · dsimp only
          rw [scanLines_error_eq (scan s0) (herr s0) lines0 md [] e hsc]
        · dsimp only
          exact ih st.1 ((s0, st.2) :: smd) src lines line h0 hfs hline hbad

/-! ### The claims about the symbol extractors and the pipeline -/

/-- C10: a readable file containing a line that consists of exactly one
token equal (case-insensitively) to `MODULE` or `USE` makes `get_f_nodelist`
abort with an uncaught `IndexError` (reading `linelist[1]`); likewise a
lone `#INCLUDE` token aborts `order_c_source_files`. -/
theorem c10_one_token_keyword_aborts :
    (∀ (fs : String → Option (List String)) (srcs : List String)
       (src : String) (lines : List String) (line : String),
       src ∈ srcs → fs src = some lines → line ∈ lines → badLineF line →
       get_f_nodelist fs srcs = Except.error PyErr.indexError) ∧
    (∀ (pick : List Nat → Nat) (fs : String → Option (List String))
       (srcs : List String) (src : String) (lines : List String)
       (line : String),
       src ∈ srcs → fs src = some lines → line ∈ lines → badLineC line →
       order_c_source_files pick fs srcs = Except.error PyErr.indexError) := by
  constructor
  · intro fs srcs src lines line hmem hfs hline hbad
    unfold get_f_nodelist scanAllF
    rw [scanAll_badLine_error scanLineF fs scanLineF_error_eq srcs [] [] src
      lines line hmem hfs hline
      (fun md2 ml2 => scanLineF_badLine src md2 ml2 line hbad)]
  · intro pick fs srcs src lines line hmem hfs hline hbad
    unfold order_c_source_files scanAllC
    rw [scanAll_badLine_error scanLineC fs scanLineC_error_eq srcs [] [] src
      lines line hmem hfs hline
      (fun md2 ml2 => scanLineC_badLine src md2 ml2 line hbad)]

/-- Witness for C10 at concrete inputs: a file whose only line is `use`
aborts the Fortran pipeline, and a file whose only line is `#include`
aborts the include pipeline. -/
theorem c10_one_token_keyword_aborts_witness :
    get_f_nodelist (fun s => if s = "a.f" then some ["use"] else none) ["a.f"]
      = Except.error PyErr.indexError ∧
    order_c_source_files pickDefault
      (fun s => if s = "a.c" then some ["#include"] else none) ["a.c"]
      = Except.error PyErr.indexError :=
  ⟨c10_one_token_keyword_aborts.1 _ ["a.f"] "a.f" ["use"] "use"
      (by simp) (by simp) (by simp) ⟨"use", by rfl, Or.inr (by rfl)⟩,
   c10_one_token_keyword_aborts.2 pickDefault _ ["a.c"] "a.c" ["#include"]
      "#include" (by simp) (by simp) (by simp) ⟨"#include", by rfl, by rfl⟩⟩

theorem getLast?_cons_match {α : Type} (a : α) (l : List α) :
    (a :: l).getLast? = match l.getLast? with
                        | some y => some y
                        | none => some a := by
  cases l with
  | nil => rfl
  | cons b t =>
    have h1 : (a :: b :: t).getLast? = (b :: t).getLast? :=
      List.getLast?_cons_cons
    have h2 : ((b :: t).getLast?).isSome :=
      List.getLast?_isSome.mpr (by simp)
    obtain ⟨y, hy⟩ := Option.isSome_iff_exists.mp h2
    rw [h1, hy]

theorem scanAll_lookup_module (fs : String → Option (List String)) :
    ∀ (srcs : List String) (md : List (String × String))
      (smd : List (String × List String)) (md1 : List (String × String))
      (smd1 : List (String × List String)),
      scanAll scanLineF fs srcs md smd = Except.ok (md1, smd1) →
      ∀ sym, List.lookup sym md1 =
        match (srcs.filter (fun s => declB fs s sym)).getLast? with
        | some s => some s
        | none => List.lookup sym md := by
  intro srcs
  induction srcs with
  | nil =>
    intro md smd md1 smd1 h sym
    simp only [scanAll, Except.ok.injEq, Prod.mk.injEq] at h
    simp [← h.1]
  | cons s0 rest ih =>
    intro md smd md1 smd1 h sym
    simp only [scanAll] at h
    rcases hf0 : fs s0 with _ | lines0
    · rw [hf0] at h
      have hrec := ih md ((s0, []) :: smd) md1 smd1 h sym
      rw [hrec, List.filter_cons]
      have hdecl : declB fs s0 sym = false := by simp [declB, hf0]
      rw [if_neg (by rw [hdecl]; exact Bool.false_ne_true)]
    · rw [hf0] at h
      dsimp only at h
      rcases hsc : scanLines (scanLineF s0) lines0 md [] with e | st
      · rw [hsc] at h; simp at h
      · rw [hsc] at h
        simp only at h
        have hmd := scanLinesF_md s0 lines0 md [] st.1 st.2 (by rw [hsc])
        have hlook : List.lookup sym st.1 =
            if sym ∈ fModuleNames lines0 then some s0
            else List.lookup sym md := by
          rw [hmd]
          exact lookup_foldl_cons s0 (fModuleNames lines0) md sym
        have hrec := ih st.1 ((s0, st.2) :: smd) md1 smd1 h sym
        rw [hrec, List.filter_cons]
        by_cases hmem : sym ∈ fModuleNames lines0
        · have hdecl : declB fs s0 sym = true := by
            simp [declB, hf0, hmem]
          rw [if_pos hdecl, getLast?_cons_match]
          rcases hlast : (rest.filter (fun s => declB fs s sym)).getLast?
            with _ | y
          · dsimp only
            rw [hlook, if_pos hmem]
          · dsimp only
        · have hdecl : declB fs s0 sym = false := by
            simp [declB, hf0, hmem]
          rw [if_neg (by rw [hdecl]; exact Bool.false_ne_true)]
          rcases hlast : (rest.filter (fun s => declB fs s sym)).getLast?
            with _ | y
          · dsimp only
            rw [hlook, if_neg hmem]
          · dsimp only

/-- C9: the symbol registry (`module_dict`) maps each provided symbol to at
most one path — the result of `List.lookup` — and for every symbol that
result is exactly the last file, in input scan order, that declares it: a
later provider silently overwrites an earlier one, and the duplicate raises
no error (the run still returns `ok`, as the witness shows). -/
theorem c9_registry_last_provider_wins (fs : String → Option (List String))
    (srcs : List String) (md : List (String × String))
    (smd : List (String × List String))
    (h : scanAllF fs srcs = Except.ok (md, smd)) (sym : String) :
    List.lookup sym md = (srcs.filter (fun s => declB fs s sym)).getLast? := by
  have hchar := scanAll_lookup_module fs srcs [] [] md smd h sym
  rw [hchar]
  rcases hx : (srcs.filter (fun s => declB fs s sym)).getLast? with _ | y
  · rfl
  · rfl

/-- Witness for C9 at a concrete input: `a.f` and `b.f` both declare
module `M`; the scan succeeds and the registry records `b.f`, the later
provider. -/
theorem c9_registry_last_provider_wins_witness :
    List.lookup "M" [("M", "b.f"), ("M", "a.f")] =
      ((["a.f", "b.f"].filter (fun s =>
        declB (fun p => if p = "a.f" then some ["module m"]
          else if p = "b.f" then some ["module m"] else none) s "M"))).getLast? :=
  c9_registry_last_provider_wins
    (fun p => if p = "a.f" then some ["module m"]
      else if p = "b.f" then some ["module m"] else none)
    ["a.f", "b.f"] [("M", "b.f"), ("M", "a.f")] [("b.f", []), ("a.f", [])]
    (by rfl) "M"

/-- C6: scanning one file in the include dialect, for every line whose
first whitespace-delimited token is `#include` (case-insensitively): the
second token, stripped of quote and angle-bracket delimiters and
uppercased, is recorded as a required symbol — deduplicated, insertion
order preserved — and that name is registered as the file's own provided
symbol exactly when the include name without extension equals the file's
own basename without extension, case-insensitively. -/
theorem c6_include_extraction (src : String) (lines : List String)
    (md : List (String × String)) (ml : List String)
    (h : scanLines (scanLineC src) lines [] [] = Except.ok (md, ml)) :
    ml = dedupKeepFirst (lines.filterMap includeNameOf) ∧
    (∀ name, List.lookup name md = some src ↔
      ∃ line ∈ lines, includeNameOf line = some name ∧
        selfInclude src name = true) ∧
    (∀ name v, List.lookup name md = some v → v = src) := by
  obtain ⟨hmd, hml⟩ := scanLinesC_structure src lines [] [] md ml h
  have hlook : ∀ name, List.lookup name md =
      if name ∈ cProvidedNames src lines then some src else none := by
    intro name
    rw [hmd, lookup_foldl_cons src (cProvidedNames src lines) [] name]
    by_cases hname : name ∈ cProvidedNames src lines
    · rw [if_pos hname, if_pos hname]
    · rw [if_neg hname, if_neg hname]
      rfl
  refine ⟨by rw [hml]; rfl, ?_, ?_⟩
  · intro name
    rw [hlook name]
    constructor
    · intro hsome
      by_cases hname : name ∈ cProvidedNames src lines
      · unfold cProvidedNames at hname
        obtain ⟨line, hline, hfl⟩ := List.mem_filterMap.mp hname
        unfold cProvLine at hfl
        rcases hinc : includeNameOf line with _ | m
        · rw [hinc] at hfl; simp at hfl
        · rw [hinc] at hfl
          dsimp only at hfl
          by_cases hself : selfInclude src m
          · rw [if_pos hself] at hfl
            simp only [Option.some.injEq] at hfl
            subst hfl
            exact ⟨line, hline, hinc, hself⟩
          · rw [if_neg hself] at hfl; simp at hfl
      · rw [if_neg hname] at hsome
        simp at hsome
    · rintro ⟨line, hline, hinc, hself⟩
      have hname : name ∈ cProvidedNames src lines := by
        unfold cProvidedNames
        refine List.mem_filterMap.mpr ⟨line, hline, ?_⟩
        unfold cProvLine
        rw [hinc]
        dsimp only
        rw [if_pos hself]
      rw [if_pos hname]
  · intro name v hv
    rw [hlook name] at hv
    by_cases hname : name ∈ cProvidedNames src lines
    · rw [if_pos hname] at hv
      exact (Option.some.inj hv).symm
    · rw [if_neg hname] at hv
      simp at hv

/-- Witness for C6 at a concrete input: `foo.cpp` including `"foo.h"` and
`<bar.h>` (the latter twice) records the required symbols
`["FOO.H", "BAR.H"]` once each in order, and registers only `FOO.H` — the
self-matching include — as its own provided symbol. -/
theorem c6_include_extraction_witness :
    (["FOO.H", "BAR.H"] : List String) =
      dedupKeepFirst ((["#include \"foo.h\"", "#include <bar.h>",
        "#include <bar.h>"]).filterMap includeNameOf) ∧
    List.lookup "FOO.H" [("FOO.H", "foo.cpp")] = some "foo.cpp" :=
  ⟨(c6_include_extraction "foo.cpp"
      ["#include \"foo.h\"", "#include <bar.h>", "#include <bar.h>"]
      [("FOO.H", "foo.cpp")] ["FOO.H", "BAR.H"] (by rfl)).1,
   ((c6_include_extraction "foo.cpp"
      ["#include \"foo.h\"", "#include <bar.h>", "#include <bar.h>"]
      [("FOO.H", "foo.cpp")] ["FOO.H", "BAR.H"] (by rfl)).2.1 "FOO.H").mpr
      ⟨"#include \"foo.h\"", List.mem_cons_self _ _, by rfl, by rfl⟩⟩

theorem nodedictAux_sound :
    ∀ (rest : List String) (i : Nat) (d : List (String × Nat))
      (srcs : List String),
      (∀ p ∈ d, srcs.get? p.2 = some p.1) →
      (∀ k, rest.get? k = srcs.get? (i + k)) →
      ∀ p ∈ nodedictAux i rest d, srcs.get? p.2 = some p.1 := by
  intro rest
  induction rest with
  | nil =>
    intro i d srcs hd _ p hp
    simp only [nodedictAux] at hp
    exact hd p hp
  | cons s0 t ih =>
    intro i d srcs hd hk p hp
    simp only [nodedictAux] at hp
    refine ih (i + 1) ((s0, i) :: d) srcs ?_ ?_ p hp
    · intro q hq
      rcases List.mem_cons.mp hq with hq0 | hq0
      · subst hq0
        have h0 := hk 0
        simpa using h0.symm
      · exact hd q hq0
    · intro k
      have h1 := hk (k + 1)
      simp only [List.get?_cons_succ] at h1
      rw [h1]
      congr 1
      omega

theorem nodedict_sound (srcs : List String) (y : String) (j : Nat)
    (h : List.lookup y (nodedictOf srcs) = some j) : srcs.get? j = some y := by
  have hmem := lookup_mem_pairs h
  unfold nodedictOf at hmem
  have := nodedictAux_sound srcs 0 [] srcs (by simp)
    (by intro k; simp) (y, j) hmem
  simpa using this

theorem wireDeps_skip (md : List (String × String)) (nd : List (String × Nat))
    (src : String) :
    ∀ (ml : List String) (acc : List Nat),
      (∀ m ∈ ml, List.lookup m md = none ∨ List.lookup m md = some src) →
      wireDeps md nd src ml acc = acc := by
  intro ml
  induction ml with
  | nil => intro acc _; rfl
  | cons m rest ih =>
    intro acc hall
    have hm := hall m (List.mem_cons_self m rest)
    have hrest : ∀ x ∈ rest,
        List.lookup x md = none ∨ List.lookup x md = some src :=
      fun x hx => hall x (List.mem_cons_of_mem m hx)
    simp only [wireDeps]
    rcases hm with hnone | hself
    · rw [hnone]
      exact ih acc hrest
    · rw [hself]
      dsimp only
      rw [if_pos rfl]
      exact ih acc hrest

theorem wireDeps_no_self (md : List (String × String))
    (nd : List (String × Nat)) (srcs : List String) (src : String) (i : Nat)
    (hnd : ∀ y j, List.lookup y nd = some j → srcs.get? j = some y)
    (hsrc : srcs.get? i = some src) :
    ∀ (ml : List String) (acc : List Nat), i ∉ acc →
      i ∉ wireDeps md nd src ml acc := by
  intro ml
  induction ml with
  | nil => intro acc h; exact h
  | cons m rest ih =>
    intro acc hacc
    simp only [wireDeps]
    rcases hlk : List.lookup m md with _ | mloc
    · exact ih acc hacc
    · dsimp only
      by_cases hms : mloc = src
      · rw [if_pos hms]
        exact ih acc hacc
      · rw [if_neg hms]
        rcases hnd' : List.lookup mloc nd with _ | j
        · exact hacc
        · dsimp only
          apply ih
          intro hmem
          by_cases hj : j ∈ acc
          · rw [if_pos hj] at hmem
            exact hacc hmem
          · rw [if_neg hj] at hmem
            rcases List.mem_append.mp hmem with hin | hin
            · exact hacc hin
            · have hij : i = j := by simpa using hin
              subst hij
              have hy := hnd mloc i hnd'
              rw [hsrc] at hy
              exact hms (Option.some.inj hy).symm

/-- C8: a required symbol that resolves in the registry to the requiring
file itself produces no self-edge — no node ever lists its own index as a
dependency — and a node all of whose required symbols resolve to itself or
to no registered provider gets an empty dependency collection and is a
member of the initial frontier (a valid root) of the sort. -/
theorem c8_self_reference_elimination (fs : String → Option (List String))
    (srcs : List String) (md : List (String × String))
    (smd : List (String × List String))
    (h : scanAllF fs srcs = Except.ok (md, smd)) :
    get_f_nodelist fs srcs = Except.ok (buildNodes md smd srcs) ∧
    (∀ i src nd, srcs.get? i = some src →
       (buildNodes md smd srcs).get? i = some nd → i ∉ nd.deps) ∧
    (∀ i src nd ml, srcs.get? i = some src →
       (buildNodes md smd srcs).get? i = some nd →
       List.lookup src smd = some ml →
       (∀ m ∈ ml, List.lookup m md = none ∨ List.lookup m md = some src) →
       nd.deps = [] ∧
         i ∈ initFrontier ((buildNodes md smd srcs).map PNode.deps)) := by
  refine ⟨?_, ?_, ?_⟩
  · unfold get_f_nodelist scanAllF at *
    rw [h]
  · intro i src nd hsrc hnd
    unfold buildNodes at hnd
    rw [List.get?_map, hsrc] at hnd
    simp only [Option.map_some'] at hnd
    rw [← Option.some.inj hnd]
    dsimp only
    rcases List.lookup src smd with _ | ml
    · simp
    · exact wireDeps_no_self md (nodedictOf srcs) srcs src i
        (fun y j hyj => nodedict_sound srcs y j hyj) hsrc ml [] (by simp)
  · intro i src nd ml hsrc hnd hml hall
    have hnd0 := hnd
    unfold buildNodes at hnd0
    rw [List.get?_map, hsrc] at hnd0
    simp only [Option.map_some'] at hnd0
    have hdeps : nd.deps = [] := by
      rw [← Option.some.inj hnd0]
      dsimp only
      rw [hml]
      exact wireDeps_skip md (nodedictOf srcs) src ml [] hall
    refine ⟨hdeps, ?_⟩
    have hlt : i < srcs.length := by
      rcases List.get?_eq_some.mp hsrc with ⟨hl, _⟩
      exact hl
    have hmap : ((buildNodes md smd srcs).map PNode.deps).get? i
        = some nd.deps := by
      rw [List.get?_map, hnd]
      rfl
    have hgetD : ((buildNodes md smd srcs).map PNode.deps).getD i [] = [] := by
      rw [List.getD_eq_getElem?_getD, ← List.get?_eq_getElem?, hmap,
        Option.getD_some, hdeps]
    unfold initFrontier
    refine List.mem_filter.mpr ⟨?_, ?_⟩
    · refine List.mem_range.mpr ?_
      rw [List.length_map]
      unfold buildNodes
      rw [List.length_map]
      exact hlt
    · rw [hgetD]
      rfl

/-- Witness for C8 at a concrete input: `a.f` declares module `A_MOD` and
uses `A_MOD` (itself) and `B_MOD` (unregistered); its node gets no
dependencies and is a valid root. -/
theorem c8_self_reference_elimination_witness :
    (⟨"a.f", []⟩ : PNode).deps = [] ∧
      0 ∈ initFrontier ((buildNodes [("A_MOD", "a.f")] [("a.f", ["A_MOD", "B_MOD"])]
        ["a.f"]).map PNode.deps) :=
  (c8_self_reference_elimination
    (fun s => if s = "a.f" then some ["module a_mod", "use a_mod", "use b_mod"]
      else none)
    ["a.f"] [("A_MOD", "a.f")] [("a.f", ["A_MOD", "B_MOD"])] (by rfl)).2.2
    0 "a.f" ⟨"a.f", []⟩ ["A_MOD", "B_MOD"] (by rfl) (by rfl) (by rfl)
    (by decide)

theorem scanAll_smd_stable
    (scan : String → List (String × String) → List String → String →
      Except PyErr (List (String × String) × List String))
    (fs : String → Option (List String)) :
    ∀ (srcs : List String) (md : List (String × String))
      (smd : List (String × List String)) (md1 : List (String × String))
      (smd1 : List (String × List String)),
      scanAll scan fs srcs md smd = Except.ok (md1, smd1) →
      ∀ k, k ∉ srcs → List.lookup k smd1 = List.lookup k smd := by
  intro srcs
  induction srcs with
  | nil =>
    intro md smd md1 smd1 h k _
    simp only [scanAll, Except.ok.injEq, Prod.mk.injEq] at h
    rw [← h.2]
  | cons s0 rest ih =>
    intro md smd md1 smd1 h k hk
    have hks : k ≠ s0 := fun he => hk (he ▸ List.mem_cons_self s0 rest)
    have hkr : k ∉ rest := fun he => hk (List.mem_cons_of_mem s0 he)
    simp only [scanAll] at h
    rcases hf0 : fs s0 with _ | lines0
    · rw [hf0] at h
      dsimp only at h
      have hst := ih md ((s0, []) :: smd) md1 smd1 h k hkr
      rw [hst, List.lookup_cons, beq_eq_false_iff_ne.mpr hks]
    · rw [hf0] at h
      dsimp only at h
      rcases hsc : scanLines (scan s0) lines0 md [] with e | st
      · rw [hsc] at h
        simp at h
      · rw [hsc] at h
        simp only at h
        have hst := ih st.1 ((s0, st.2) :: smd) md1 smd1 h k hkr
        rw [hst, List.lookup_cons, beq_eq_false_iff_ne.mpr hks]

theorem scanAll_smd_unreadable
    (scan : String → List (String × String) → List String → String →
      Except PyErr (List (String × String) × List String))
    (fs : String → Option (List String)) :
    ∀ (srcs : List String) (md : List (String × String))
      (smd : List (String × List String)) (md1 : List (String × String))
      (smd1 : List (String × List String)) (file : String),
      scanAll scan fs srcs md smd = Except.ok (md1, smd1) →
      file ∈ srcs → fs file = none →
      List.lookup file smd1 = some [] := by
  intro srcs
  induction srcs with
  | nil => intro _ _ _ _ _ h hmem; simp at hmem
  | cons s0 rest ih =>
    intro md smd md1 smd1 file h hmem hfs
    simp only [scanAll] at h
    by_cases hfr : file ∈ rest
    · rcases hf0 : fs s0 with _ | lines0
      · rw [hf0] at h
        dsimp only at h
        exact ih md ((s0, []) :: smd) md1 smd1 file h hfr hfs
      · rw [hf0] at h
        dsimp only at h
        rcases hsc : scanLines (scan s0) lines0 md [] with e | st
        · rw [hsc] at h
          simp at h
        · rw [hsc] at h
          simp only at h
          exact ih st.1 ((s0, st.2) :: smd) md1 smd1 file h hfr hfs
    · have hfile : file = s0 := by
        rcases List.mem_cons.mp hmem with h0 | h0
        · exact h0
        · exact absurd h0 hfr
      subst hfile
      rw [hfs] at h
      dsimp only at h
      have hst := scanAll_smd_stable scan fs rest md ((file, []) :: smd) md1
        smd1 h file hfr
      rw [hst, List.lookup_cons, beq_self_eq_true]

theorem scanAll_md_values (fs : String → Option (List String)) :
    ∀ (srcs : List String) (md : List (String × String))
      (smd : List (String × List String)) (md1 : List (String × String))
      (smd1 : List (String × List String)),
      scanAll scanLineF fs srcs md smd = Except.ok (md1, smd1) →
      ∀ sym v, List.lookup sym md1 = some v →
        List.lookup sym md = some v ∨ fs v ≠ none := by
  intro srcs
  induction srcs with
  | nil =>
    intro md smd md1 smd1 h sym v hv
    simp only [scanAll, Except.ok.injEq, Prod.mk.injEq] at h
    exact Or.inl (h.1 ▸ hv)
  | cons s0 rest ih =>
    intro md smd md1 smd1 h sym v hv
    simp only [scanAll] at h
    rcases hf0 : fs s0 with _ | lines0
    · rw [hf0] at h
      dsimp only at h
      exact ih md ((s0, []) :: smd) md1 smd1 h sym v hv
    · rw [hf0] at h
      dsimp only at h
      rcases hsc : scanLines (scanLineF s0) lines0 md [] with e | st
      · rw [hsc] at h
        simp at h
      · rw [hsc] at h
        simp only at h
        rcases ih st.1 ((s0, st.2) :: smd) md1 smd1 h sym v hv with hin | hout
        · have hmd := scanLinesF_md s0 lines0 md [] st.1 st.2 (by rw [hsc])
          rw [hmd, lookup_foldl_cons] at hin
          by_cases hmem : sym ∈ fModuleNames lines0
          · rw [if_pos hmem] at hin
            have hv0 : v = s0 := (Option.some.inj hin).symm
            subst hv0
            exact Or.inr (by rw [hf0]; simp)
          · rw [if_neg hmem] at hin
            exact Or.inl hin
        · exact Or.inr hout

/-- C7: an unopenable file is recorded with an empty requirement list and
provides no symbol (so no edge can ever target it), yet it still becomes a
Node with an empty dependency collection; and concretely, for one
unopenable file plus one independent readable file, the sort succeeds for
every pop order and the output contains both files. -/
theorem c7_unreadable_file_tolerance :
    (∀ (fs : String → Option (List String)) (srcs : List String)
       (file : String) (md : List (String × String))
       (smd : List (String × List String)),
       file ∈ srcs → fs file = none →
       scanAllF fs srcs = Except.ok (md, smd) →
       List.lookup file smd = some [] ∧
       (∀ sym, List.lookup sym md ≠ some file) ∧
       (∀ i nd, srcs.get? i = some file →
          (buildNodes md smd srcs).get? i = some nd →
          nd.name = file ∧ nd.deps = [])) ∧
    (∀ (pick : List Nat → Nat) (fs : String → Option (List String))
       (file ind : String), file ≠ ind → fs file = none → fs ind = some [] →
       ∃ out, order_source_files pick fs [file, ind] = Except.ok out ∧
         file ∈ out ∧ ind ∈ out ∧ out.length = 2) := by
  constructor
  · intro fs srcs file md smd hmem hfs hscan
    have hsmd : List.lookup file smd = some [] :=
      scanAll_smd_unreadable scanLineF fs srcs [] [] md smd file hscan hmem hfs
    refine ⟨hsmd, ?_, ?_⟩
    · intro sym hv
      rcases scanAll_md_values fs srcs [] [] md smd hscan sym file hv
        with h0 | h0
      · simp at h0
      · exact h0 hfs
    · intro i nd hsrc hnd
      unfold buildNodes at hnd
      rw [List.get?_map, hsrc] at hnd
      simp only [Option.map_some'] at hnd
      rw [← Option.some.inj hnd]
      refine ⟨rfl, ?_⟩
      dsimp only
      rw [hsmd]
      rfl
  · intro pick fs file ind hne hfile hind
    have hb : (file == ind) = false := beq_eq_false_iff_ne.mpr hne
    have hscan : scanAllF fs [file, ind] =
        Except.ok ([], [(ind, []), (file, [])]) := by
      unfold scanAllF
      simp only [scanAll]
      rw [hfile]
      dsimp only
      rw [hind]
      rfl
    have l1 : List.lookup file [(ind, ([] : List String)), (file, [])]
        = some [] := by
      rw [List.lookup_cons, hb]
      dsimp only
      rw [List.lookup_cons, beq_self_eq_true]
    have l2 : List.lookup ind [(ind, ([] : List String)), (file, [])]
        = some [] := by
      rw [List.lookup_cons, beq_self_eq_true]
    have hget : get_f_nodelist fs [file, ind] =
        Except.ok [⟨file, []⟩, ⟨ind, []⟩] := by
      unfold get_f_nodelist
      rw [hscan]
      dsimp only
      unfold buildNodes
      simp only [List.map_cons, List.map_nil]
      rw [l1, l2]
      rfl
    have hmap : (([⟨file, []⟩, ⟨ind, []⟩] : List PNode).map PNode.deps)
        = [[], []] := rfl
    have h01 : pick [0, 1] % 2 = 0 ∨ pick [0, 1] % 2 = 1 := by omega
    rcases h01 with hp | hp
    · have hp' : pick ([0, 1] : List Nat) % ([0, 1] : List Nat).length = 0 := hp
      have hstep1 : sortLoop pick 2 [[], []] [0, 1] []
          = sortLoop pick 1 [[], []] [1] [0] := by
        rw [sortLoop, hp']
        rfl
      have hstep2 : sortLoop pick 1 [[], []] [1] [0]
          = ([[], []], [], [0, 1]) := by
        have hm1 : pick ([1] : List Nat) % ([1] : List Nat).length = 0 :=
          Nat.mod_one _
        rw [sortLoop, hm1]
        rfl
      have hts : toposort pick [[], []] = Except.ok [0, 1] := by
        have e1 : sortLoop pick
            ((initFrontier ([[], []] : List (List Nat))).length +
              totalSize [[], []]) [[], []] (initFrontier [[], []]) []
            = ([[], []], [], [0, 1]) := hstep1.trans hstep2
        unfold toposort toposortSt
        rw [e1]
        rfl
      refine ⟨[file, ind], ?_, List.mem_cons_self _ _, by simp, rfl⟩
      unfold order_source_files
      rw [hget]
      dsimp only
      rw [hmap, hts]
      rfl
    · have hp' : pick ([0, 1] : List Nat) % ([0, 1] : List Nat).length = 1 := hp
      have hstep1 : sortLoop pick 2 [[], []] [0, 1] []
          = sortLoop pick 1 [[], []] [0] [1] := by
        rw [sortLoop, hp']
        rfl
      have hstep2 : sortLoop pick 1 [[], []] [0] [1]
          = ([[], []], [], [1, 0]) := by
        have hm1 : pick ([0] : List Nat) % ([0] : List Nat).length = 0 :=
          Nat.mod_one _
        rw [sortLoop, hm1]
        rfl
      have hts : toposort pick [[], []] = Except.ok [1, 0] := by
        have e1 : sortLoop pick
            ((initFrontier ([[], []] : List (List Nat))).length +
              totalSize [[], []]) [[], []] (initFrontier [[], []]) []
            = ([[], []], [], [1, 0]) := hstep1.trans hstep2
        unfold toposort toposortSt
        rw [e1]
        rfl
      refine ⟨[ind, file], ?_, by simp, List.mem_cons_self _ _, rfl⟩
      unfold order_source_files
      rw [hget]
      dsimp only
      rw [hmap, hts]
      rfl

/-- Witness for C7 at concrete inputs: `u.f` cannot be opened, `a.f` is
empty; the scan records `u.f` with no requirements and no provided symbol,
and the two-file sort succeeds containing both files. -/
theorem c7_unreadable_file_tolerance_witness :
    (List.lookup "u.f" [("a.f", ([] : List String)), ("u.f", [])] = some [] ∧
      (∀ sym, List.lookup sym ([] : List (String × String)) ≠ some "u.f") ∧
      (∀ i nd, (["u.f", "a.f"] : List String).get? i = some "u.f" →
        (buildNodes [] [("a.f", []), ("u.f", [])] ["u.f", "a.f"]).get? i
          = some nd → nd.name = "u.f" ∧ nd.deps = [])) ∧
    (∃ out, order_source_files pickDefault
        (fun s => if s = "a.f" then some [] else none) ["u.f", "a.f"]
        = Except.ok out ∧
      "u.f" ∈ out ∧ "a.f" ∈ out ∧ out.length = 2) :=
  ⟨c7_unreadable_file_tolerance.1
      (fun s => if s = "a.f" then some [] else none) ["u.f", "a.f"] "u.f"
      [] [("a.f", []), ("u.f", [])] (by simp) (by rfl) (by rfl),
   c7_unreadable_file_tolerance.2 pickDefault
      (fun s => if s = "a.f" then some [] else none) "u.f" "a.f"
      (by decide) (by rfl) (by rfl)⟩
